import Mathlib

/-!
The EnvoyConfigRevision controller of marin3r.

A shallow embedding of `controllers/marin3r/envoyconfigrevision_controller.go`
(`Reconcile`, `updateStatus`, `taintSelf`, `filterByAPIVersion`,
`filterByAPIVersionPredicate`) and of the revision repository exercised by
`pkg/reconcilers/marin3r/envoyconfig/revisions/crud_test.go`.

Conventions of the embedding:

* the object a Go function receives by pointer and mutates is passed in and
  handed back;
* every call on a collaborator (API client, xDS cache) is appended to a
  history of `Call`s; what a collaborator answers is given by an oracle that
  reads the history so far and the arguments of the call, so a collaborator
  may answer differently each time;
* a Go `error` is an `Option Error`, `none` being `nil`;
* a nil pointer dereference (`*ecr.Status.Published` on a nil pointer) panics:
  the functions that dereference return an `Option`, `none` being the panic;
* a successful `Update` or `Patch` leaves the in-memory object as it was sent
  (the object the API server sends back differs in `resourceVersion` only,
  which is not part of the model).
-/

set_option linter.dupNamespace false
set_option linter.unusedVariables false

namespace Marin3r

/-! ## Data model -/

/-- A `metav1.Time`, as a number of clock ticks; `0` is Go's zero value. -/
abbrev Time := Nat

/-- The `corev1.ConditionStatus` values. -/
inductive ConditionStatus where
  | ConditionTrue
  | ConditionFalse
  | ConditionUnknown
deriving DecidableEq, Repr

/-- A `status.ConditionType` of operator-lib (a Go string type). -/
abbrev ConditionType := String

/-- A `status.Condition` of operator-lib; `Type_` is the Go field `Type`. -/
structure Condition where
  Type_ : ConditionType
  Status : ConditionStatus
  Reason : String
  Message : String
  LastTransitionTime : Time
deriving DecidableEq, Repr

/-- The Go method `Condition.IsTrue`: `c.Status == corev1.ConditionTrue`. -/
def Condition.IsTrue (c : Condition) : Bool :=
  decide (c.Status = ConditionStatus.ConditionTrue)

/-- A `status.Conditions` of operator-lib: a slice of conditions. -/
abbrev Conditions := List Condition

/-- Modelled from the spec: the method `Conditions.IsTrueFor` belongs to the
operator-lib dependency, which is not among the sources. The first condition
of the asked type decides; with no condition of that type the answer is
false. -/
def IsTrueFor : Conditions → ConditionType → Bool
  | [], _ => false
  | c :: cs, t => if c.Type_ = t then c.IsTrue else IsTrueFor cs t

/-- Modelled from the spec: the method `Conditions.GetCondition` of the
operator-lib dependency: the first condition of the asked type, if any. -/
def GetCondition : Conditions → ConditionType → Option Condition
  | [], _ => none
  | c :: cs, t => if c.Type_ = t then some c else GetCondition cs t

/-- Modelled from the spec: the method `Conditions.SetCondition` of the
operator-lib dependency. The first condition of the same type is replaced by
the new one, which keeps the old transition time when the status does not
change and is stamped with the clock otherwise; with no condition of that
type the new one is appended. The boolean the Go method returns is dropped at
every call site of the controller and is not modelled. -/
def SetCondition (now : Time) : Conditions → Condition → Conditions
  | [], newCond => [{ newCond with LastTransitionTime := now }]
  | c :: cs, newCond =>
    if c.Type_ = newCond.Type_ then
      { newCond with
        LastTransitionTime :=
          if c.Status = newCond.Status then c.LastTransitionTime else now } :: cs
    else c :: SetCondition now cs newCond

/-- Modelled from the spec: the condition type constants are declared in
`apis/marin3r/v1alpha1`, which is not among the sources; the spec names the
three kinds `Published`, `Tainted` and `ResourcesOutOfSync`. -/
def RevisionPublishedCondition : ConditionType := "RevisionPublished"

/-- Modelled from the spec: see `RevisionPublishedCondition`. -/
def RevisionTaintedCondition : ConditionType := "RevisionTainted"

/-- Modelled from the spec: see `RevisionPublishedCondition`. -/
def ResourcesOutOfSyncCondition : ConditionType := "ResourcesOutOfSync"

/-- Modelled from the spec: the finalizer name is declared in
`apis/marin3r/v1alpha1`, which is not among the sources. -/
def EnvoyConfigRevisionFinalizer : String := "finalizer.marin3r.3scale.net"

/-- An `envoy.APIVersion` (a Go string type). -/
abbrev APIVersion := String

/-- The part of `metav1.ObjectMeta` the controller and the repository read. -/
structure ObjectMeta where
  Name : String
  Namespace : String
  Labels : List (String × String)
  Finalizers : List String
  DeletionTimestamp : Option Time
deriving DecidableEq, Repr

/-- The `EnvoyConfigRevisionSpec`; the resource payload is not interpreted by
the controller and is kept as a string. -/
structure EnvoyConfigRevisionSpec where
  NodeID : String
  Version : String
  EnvoyAPI : Option String
  Serialization : Option String
  EnvoyResources : String
deriving DecidableEq, Repr

/-- The `EnvoyConfigRevisionStatus`; the three pointer fields are options,
`none` being the nil pointer. -/
structure EnvoyConfigRevisionStatus where
  Published : Option Bool
  Tainted : Option Bool
  LastPublishedAt : Option Time
  Conditions : Conditions
deriving DecidableEq, Repr

/-- An `EnvoyConfigRevision` object. -/
structure EnvoyConfigRevision where
  ObjectMeta : ObjectMeta
  Spec : EnvoyConfigRevisionSpec
  Status : EnvoyConfigRevisionStatus
deriving DecidableEq, Repr

/-- A Go `error` value that is not nil. `StatusError` is the API machinery's
`*errors.StatusError` with its reason and message; every other dynamic type
is `Other`. -/
inductive Error where
  | StatusError (reason : String) (message : String)
  | Other (message : String)
deriving DecidableEq, Repr

/-- The Go method `err.Error()`. -/
def Error.Error : Error → String
  | .StatusError _ message => message
  | .Other message => message

/-- The type switch `case *errors.StatusError` on a possibly nil error. -/
def isStatusError : Option Error → Bool
  | some (.StatusError _ _) => true
  | _ => false

/-- The API machinery's `errors.IsNotFound`. -/
def IsNotFound : Error → Bool
  | .StatusError reason _ => decide (reason = "NotFound")
  | .Other _ => false

/-- A `ctrl.Result`. -/
structure Result where
  Requeue : Bool
  RequeueAfter : Nat
deriving DecidableEq, Repr

/-- The zero value `ctrl.Result{}`. -/
def Result.empty : Result := { Requeue := false, RequeueAfter := 0 }

/-- A `types.NamespacedName`. -/
structure NamespacedName where
  Namespace : String
  Name : String
deriving DecidableEq, Repr

/-- A `ctrl.Request`. -/
structure Request where
  NamespacedName : NamespacedName
deriving DecidableEq, Repr

/-- One call on a collaborator, with its arguments. `StatusPatch obj base` is
`r.Client.Status().Patch(ctx, obj, client.MergeFrom(base))`. -/
inductive Call where
  | Get (key : NamespacedName)
  | Update (obj : EnvoyConfigRevision)
  | StatusPatch (obj base : EnvoyConfigRevision)
  | CleanupLogic (ecr : EnvoyConfigRevision)
  | CacheReconcile (req : NamespacedName) (resources nodeID version : String)
deriving DecidableEq, Repr

/-- The answers of the API client, each from the history of calls so far. -/
structure Client where
  Get : List Call → NamespacedName → Except Error EnvoyConfigRevision
  Update : List Call → EnvoyConfigRevision → Option Error
  StatusPatch : List Call → EnvoyConfigRevision → EnvoyConfigRevision → Option Error

/-- The `EnvoyConfigRevisionReconciler` with what it works with. `Client` and
`APIVersion` are fields of the Go struct; `Now` is the clock. The last three
fields stand for code of the repository that is not among the sources and are
left arbitrary: `IsInitialized` answers whether the revision needed no
defaulting and hands back the defaulted revision, `CleanupLogic` gives the
outcome of clearing the xDS cache (the caller never sees it), and
`CacheReconcile` is `cacheReconciler.Reconcile`, which reads the revision's
serialization, resources, node and version. -/
structure EnvoyConfigRevisionReconciler where
  Client : Client
  APIVersion : APIVersion
  Now : Time
  IsInitialized : EnvoyConfigRevision → Bool × EnvoyConfigRevision
  CleanupLogic : List Call → EnvoyConfigRevision → Option Error
  CacheReconcile : List Call → EnvoyConfigRevision → Result × Option Error

/-- The revision with another condition list. -/
def EnvoyConfigRevision.withConditions (ecr : EnvoyConfigRevision) (cs : Conditions) :
    EnvoyConfigRevision :=
  { ecr with Status := { ecr.Status with Conditions := cs } }

/-! ## The status reconciler -/

/-- What `updateStatus` and `taintSelf` leave behind: the revision as mutated
in memory, the history of calls, and the returned error. -/
structure StatusOutcome where
  ecr : EnvoyConfigRevision
  calls : List Call
  err : Option Error
deriving DecidableEq, Repr

/-- Lines 140-150 of `updateStatus`: clear a true `ResourcesOutOfSync`
condition. The boolean is the variable `changed`. -/
def clearResourcesOutOfSync (now : Time) (s : EnvoyConfigRevision × Bool) :
    EnvoyConfigRevision × Bool :=
  if IsTrueFor s.1.Status.Conditions ResourcesOutOfSyncCondition then
    (s.1.withConditions (SetCondition now s.1.Status.Conditions
      { Type_ := ResourcesOutOfSyncCondition
        Reason := "NodeConficRevisionSynced"
        Status := ConditionStatus.ConditionFalse
        Message := "EnvoyConfigRevision successfully synced"
        LastTransitionTime := 0 }), true)
  else s

/-- Lines 152-162 of `updateStatus`: `status.published` and
`status.lastPublishedAt`. Go's `&&` evaluates its right operand only when the
left one is true, so `*ecr.Status.Published` is read in the first test when
the condition is true and in the second one when it is false; `none` is the
panic on a nil pointer. -/
def setPublished (now : Time) (s : EnvoyConfigRevision × Bool) :
    Option (EnvoyConfigRevision × Bool) :=
  let isTrue := IsTrueFor s.1.Status.Conditions RevisionPublishedCondition
  (if isTrue then s.1.Status.Published.map (fun p => !p) else some false).bind fun first =>
  if first then
    some ({ s.1 with Status := { s.1.Status with
              Published := some true
              LastPublishedAt := some now
              Tainted := some false } }, true)
  else
    (if !isTrue then s.1.Status.Published else some false).bind fun second =>
    if second then
      some ({ s.1 with Status := { s.1.Status with Published := some false } }, true)
    else some s

/-- Lines 164-171 of `updateStatus`: `status.tainted`, with the same
evaluation order as `setPublished`. -/
def setTainted (s : EnvoyConfigRevision × Bool) : Option (EnvoyConfigRevision × Bool) :=
  let isTrue := IsTrueFor s.1.Status.Conditions RevisionTaintedCondition
  (if isTrue then s.1.Status.Tainted.map (fun t => !t) else some false).bind fun first =>
  if first then
    some ({ s.1 with Status := { s.1.Status with Tainted := some true } }, true)
  else
    (if !isTrue then s.1.Status.Tainted else some false).bind fun second =>
    if second then
      some ({ s.1 with Status := { s.1.Status with Tainted := some false } }, true)
    else some s

/-- The method `updateStatus`. `hist` is the history of calls before it runs;
the patch base is the deep copy taken on entry. -/
def updateStatus (r : EnvoyConfigRevisionReconciler) (hist : List Call)
    (ecr : EnvoyConfigRevision) : Option StatusOutcome :=
  (setPublished r.Now (clearResourcesOutOfSync r.Now (ecr, false))).bind fun s2 =>
  (setTainted s2).bind fun s3 =>
  if s3.2 then
    some { ecr := s3.1
           calls := hist ++ [Call.StatusPatch s3.1 ecr]
           err := r.Client.StatusPatch hist s3.1 ecr }
  else some { ecr := s3.1, calls := hist, err := none }

/-- The method `taintSelf`. -/
def taintSelf (r : EnvoyConfigRevisionReconciler) (hist : List Call)
    (ecr : EnvoyConfigRevision) (reason msg : String) : StatusOutcome :=
  if !IsTrueFor ecr.Status.Conditions RevisionTaintedCondition then
    let tainted : EnvoyConfigRevision :=
      { ecr with Status := { ecr.Status with
          Conditions := SetCondition r.Now ecr.Status.Conditions
            { Type_ := RevisionTaintedCondition
              Status := ConditionStatus.ConditionTrue
              Reason := reason
              Message := msg
              LastTransitionTime := 0 }
          Tainted := some true } }
    { ecr := tainted
      calls := hist ++ [Call.StatusPatch tainted ecr]
      err := r.Client.StatusPatch hist tainted ecr }
  else { ecr := ecr, calls := hist, err := none }

/-! ## The reconciliation pass -/

/-- Modelled from the spec: `common.IsBeingDeleted` lives in `pkg/common`,
which is not among the sources; deletion is requested when the owning store
has set the deletion timestamp. -/
def IsBeingDeleted (ecr : EnvoyConfigRevision) : Bool :=
  ecr.ObjectMeta.DeletionTimestamp.isSome

/-- The function `controllerutil.ContainsFinalizer` of controller-runtime. -/
def ContainsFinalizer (ecr : EnvoyConfigRevision) (finalizer : String) : Bool :=
  ecr.ObjectMeta.Finalizers.any fun f => decide (f = finalizer)

/-- The function `controllerutil.RemoveFinalizer` of controller-runtime: every
occurrence of the finalizer is dropped. -/
def RemoveFinalizer (ecr : EnvoyConfigRevision) (finalizer : String) : EnvoyConfigRevision :=
  { ecr with ObjectMeta := { ecr.ObjectMeta with
      Finalizers := ecr.ObjectMeta.Finalizers.filter fun f => !decide (f = finalizer) } }

/-- What one `Reconcile` pass leaves behind: the returned result and error,
the revision as it stands in memory at the end (`none` when it could not be
fetched) and the history of calls. -/
structure ReconcileOutcome where
  result : Result
  err : Option Error
  ecr : Option EnvoyConfigRevision
  calls : List Call
deriving DecidableEq, Repr

/-- Lines 127-132 of `Reconcile`: update the status and return; both returns
carry `ctrl.Result{}`, with the error of `updateStatus` or nil. -/
def reconcileStatus (r : EnvoyConfigRevisionReconciler) (hist : List Call)
    (ecr : EnvoyConfigRevision) : Option ReconcileOutcome :=
  (updateStatus r hist ecr).map fun u =>
    { result := Result.empty, err := u.err, ecr := some u.ecr, calls := u.calls }

/-- Lines 98-132 of `Reconcile`: publish the resources of a revision whose
`RevisionPublished` condition is true, taint on a `*errors.StatusError`, hand
any other failure or requeue back, then update the status. -/
def reconcilePublished (r : EnvoyConfigRevisionReconciler) (hist : List Call)
    (req : Request) (ecr : EnvoyConfigRevision) : Option ReconcileOutcome :=
  if IsTrueFor ecr.Status.Conditions RevisionPublishedCondition then
    let out := r.CacheReconcile hist ecr
    let h := hist ++ [Call.CacheReconcile req.NamespacedName
      ecr.Spec.EnvoyResources ecr.Spec.NodeID ecr.Spec.Version]
    if out.1.Requeue || out.2.isSome then
      match out.2 with
      | some (Error.StatusError reason message) =>
        let t := taintSelf r h ecr "FailedLoadingResources"
          (Error.StatusError reason message).Error
        match t.err with
        | some err =>
          some { result := Result.empty, err := some err, ecr := some t.ecr, calls := t.calls }
        | none => reconcileStatus r t.calls t.ecr
      | _ => some { result := out.1, err := out.2, ecr := some ecr, calls := h }
    else reconcileStatus r h ecr
  else reconcileStatus r hist ecr

/-- Lines 86-132 of `Reconcile`: the deletion block and what follows it. When
the `Update` that persists the finalizer removal fails the pass returns
`reconcile.Result{}, nil`; when it succeeds control leaves the `if` block and
goes on at line 98. -/
def reconcileInitialized (r : EnvoyConfigRevisionReconciler) (hist : List Call)
    (req : Request) (ecr : EnvoyConfigRevision) : Option ReconcileOutcome :=
  if IsBeingDeleted ecr then
    if !ContainsFinalizer ecr EnvoyConfigRevisionFinalizer then
      some { result := Result.empty, err := none, ecr := some ecr, calls := hist }
    else
      let h1 := hist ++ [Call.CleanupLogic ecr]
      let cleaned := RemoveFinalizer ecr EnvoyConfigRevisionFinalizer
      let h2 := h1 ++ [Call.Update cleaned]
      match r.Client.Update h1 cleaned with
      | some _ => some { result := Result.empty, err := none, ecr := some cleaned, calls := h2 }
      | none => reconcilePublished r h2 req cleaned
  else reconcilePublished r hist req ecr

/-- The method `Reconcile`. `hist` is the history of calls of earlier passes. -/
def Reconcile (r : EnvoyConfigRevisionReconciler) (hist : List Call) (req : Request) :
    Option ReconcileOutcome :=
  let h1 := hist ++ [Call.Get req.NamespacedName]
  match r.Client.Get hist req.NamespacedName with
  | .error err =>
    if IsNotFound err then
      some { result := Result.empty, err := none, ecr := none, calls := h1 }
    else some { result := Result.empty, err := some err, ecr := none, calls := h1 }
  | .ok fetched =>
    let init := r.IsInitialized fetched
    if !init.1 then
      match r.Client.Update h1 init.2 with
      | some err =>
        some { result := Result.empty, err := some err, ecr := some init.2
               calls := h1 ++ [Call.Update init.2] }
      | none =>
        some { result := Result.empty, err := none, ecr := some init.2
               calls := h1 ++ [Call.Update init.2] }
    else reconcileInitialized r h1 req init.2

/-! ## The dispatch filter -/

/-- A `runtime.Object` by its dynamic type: a revision, or an object of any
other kind. -/
inductive RuntimeObject where
  | EnvoyConfigRevision (o : Marin3r.EnvoyConfigRevision)
  | Other (kind : String)
deriving DecidableEq, Repr

/-- The function `filterByAPIVersion`. `GetEnvoyAPIVersion` is a method of the
API type, which is not among the sources, and is left arbitrary. -/
def filterByAPIVersion (GetEnvoyAPIVersion : EnvoyConfigRevision → APIVersion)
    (obj : RuntimeObject) (version : APIVersion) : Bool :=
  match obj with
  | .EnvoyConfigRevision o =>
    if GetEnvoyAPIVersion o = version then true else false
  | _ => false

/-- An `event.CreateEvent` of controller-runtime. -/
structure CreateEvent where
  Object : RuntimeObject

/-- An `event.UpdateEvent` of controller-runtime. -/
structure UpdateEvent where
  ObjectOld : RuntimeObject
  ObjectNew : RuntimeObject

/-- An `event.DeleteEvent` of controller-runtime. -/
structure DeleteEvent where
  Object : RuntimeObject

/-- An `event.GenericEvent` of controller-runtime. -/
structure GenericEvent where
  Object : RuntimeObject

/-- The `predicate.Funcs` of controller-runtime; `none` is a nil function
field. -/
structure Funcs where
  CreateFunc : Option (CreateEvent → Bool)
  DeleteFunc : Option (DeleteEvent → Bool)
  UpdateFunc : Option (UpdateEvent → Bool)
  GenericFunc : Option (GenericEvent → Bool)

/-- The method `Funcs.Create`: a nil function admits every event. -/
def Funcs.Create (p : Funcs) (e : CreateEvent) : Bool :=
  match p.CreateFunc with
  | some f => f e
  | none => true

/-- The method `Funcs.Delete`. -/
def Funcs.Delete (p : Funcs) (e : DeleteEvent) : Bool :=
  match p.DeleteFunc with
  | some f => f e
  | none => true

/-- The method `Funcs.Update`. -/
def Funcs.Update (p : Funcs) (e : UpdateEvent) : Bool :=
  match p.UpdateFunc with
  | some f => f e
  | none => true

/-- The function `filterByAPIVersionPredicate`. -/
def filterByAPIVersionPredicate (version : APIVersion)
    (filter : RuntimeObject → APIVersion → Bool) : Funcs :=
  { CreateFunc := some fun e => filter e.Object version
    UpdateFunc := some fun e => filter e.ObjectNew version
    DeleteFunc := some fun e => filter e.Object version
    GenericFunc := none }

/-! ## The revision repository -/

namespace revisions

/-- Modelled from the spec: a `filters.RevisionFilter` of the package
`pkg/reconcilers/marin3r/envoyconfig/filters`, which is not among the
sources: a predicate over a revision (the set of predicates is open). -/
abbrev RevisionFilter := EnvoyConfigRevision → Bool

/-- Modelled from the spec: the label key `filters.NodeIDTag`, declared in the
absent package `filters`. -/
def NodeIDTag : String := "marin3r.3scale.net/node-id"

/-- Modelled from the spec: the label key `filters.VersionTag`, declared in
the absent package `filters`. -/
def VersionTag : String := "marin3r.3scale.net/config-version"

/-- Modelled from the spec: `filters.ByNodeID` of the absent package
`filters`: an exact, case-sensitive match on the node label. -/
def ByNodeID (nodeID : String) : RevisionFilter :=
  fun ecr => decide (ecr.ObjectMeta.Labels.lookup NodeIDTag = some nodeID)

/-- Modelled from the spec: `filters.ByVersion` of the absent package
`filters`: an exact, case-sensitive match on the version label. -/
def ByVersion (version : String) : RevisionFilter :=
  fun ecr => decide (ecr.ObjectMeta.Labels.lookup VersionTag = some version)

/-- The failures of a point lookup named by the spec. -/
inductive LookupError where
  | NotFound
  | AmbiguousResult
deriving DecidableEq, Repr

/-- Modelled from the spec: a revision matches a lookup when it lives in the
asked namespace and passes every filter (a logical AND). -/
def Matches (ns : String) (filters : List RevisionFilter) (ecr : EnvoyConfigRevision) : Bool :=
  decide (ecr.ObjectMeta.Namespace = ns) && filters.all fun f => f ecr

/-- Modelled from the spec: `List` of `crud.go`, which is not among the
sources: `list(namespace, filters...)` applies all the filters as a logical
AND over the revisions of the namespace, in the order of the collection. On
no match the spec returns the empty collection, whereas `TestListRevisions` in
`crud_test.go` expects an error; `Get` fails on no match in both readings. -/
def ListRevisions (store : List EnvoyConfigRevision) (ns : String)
    (filters : List RevisionFilter) : List EnvoyConfigRevision :=
  store.filter (Matches ns filters)

/-- Modelled from the spec: `Get` of `crud.go`, which is not among the
sources: `get(namespace, filters...)` must match exactly one revision; it
fails with `NotFound` when none matches and with `AmbiguousResult` when more
than one does. An error comes with a nil revision. -/
def Get (store : List EnvoyConfigRevision) (ns : String)
    (filters : List RevisionFilter) : Except LookupError EnvoyConfigRevision :=
  match ListRevisions store ns filters with
  | [] => .error LookupError.NotFound
  | [ecr] => .ok ecr
  | _ :: _ :: _ => .error LookupError.AmbiguousResult

end revisions

/-! ## Sequences of taints -/

/-- A run of `taintSelf` calls on the same in-memory revision, one per
`(reason, message)` pair, in order; the outcome is the revision and the
history at the end. -/
def taintSelfAll (r : EnvoyConfigRevisionReconciler) :
    List Call → EnvoyConfigRevision → List (String × String) → EnvoyConfigRevision × List Call
  | hist, ecr, [] => (ecr, hist)
  | hist, ecr, (reason, msg) :: rest =>
    taintSelfAll r (taintSelf r hist ecr reason msg).calls
      (taintSelf r hist ecr reason msg).ecr rest

/-- Whether a call is a status `Patch`. -/
def Call.isStatusPatch : Call → Bool
  | .StatusPatch _ _ => true
  | _ => false

/-- The number of status `Patch` calls in a history. -/
def countStatusPatches (hist : List Call) : Nat :=
  hist.countP Call.isStatusPatch

/-! ## Concrete revisions and collaborators -/

/-- A condition of the given type and status, as a test would write it. -/
def mkCondition (t : ConditionType) (st : ConditionStatus) (reason : String) : Condition :=
  { Type_ := t, Status := st, Reason := reason, Message := "", LastTransitionTime := 1 }

/-- A revision of node `n1`, version `v1`, in namespace `test`. -/
def mkRevision (finalizers : List String) (deletion : Option Time)
    (published tainted : Option Bool) (conds : Conditions) : EnvoyConfigRevision :=
  { ObjectMeta :=
      { Name := "ecr1", Namespace := "test", Labels := []
        Finalizers := finalizers, DeletionTimestamp := deletion }
    Spec :=
      { NodeID := "n1", Version := "v1", EnvoyAPI := some "v2"
        Serialization := some "json", EnvoyResources := "payload" }
    Status :=
      { Published := published, Tainted := tainted, LastPublishedAt := none
        Conditions := conds } }

/-- Modelled from the spec: a stand-in for `envoyconfigrevision.IsInitialized`,
which is not among the sources: the nil `status.published` and
`status.tainted` are defaulted to false, and the answer is whether nothing had
to be defaulted. -/
def defaultStatus (ecr : EnvoyConfigRevision) : Bool × EnvoyConfigRevision :=
  (ecr.Status.Published.isSome && ecr.Status.Tainted.isSome,
   { ecr with Status := { ecr.Status with
       Published := some (ecr.Status.Published.getD false)
       Tainted := some (ecr.Status.Tainted.getD false) } })

/-- A reconciler at clock `7` whose client fetches `stored`, whose `Update`
and status `Patch` answer `update` and `patch`, whose cache cleanup answers
`cleanup` and whose cache reconciler answers `cache`. -/
def mkReconciler (stored : EnvoyConfigRevision) (update patch cleanup : Option Error)
    (cache : Result × Option Error) : EnvoyConfigRevisionReconciler :=
  { Client :=
      { Get := fun _ _ => .ok stored
        Update := fun _ _ => update
        StatusPatch := fun _ _ _ => patch }
    APIVersion := "v2"
    Now := 7
    IsInitialized := defaultStatus
    CleanupLogic := fun _ _ => cleanup
    CacheReconcile := fun _ _ => cache }

/-- The request for the revision of `mkRevision`. -/
def sampleRequest : Request := { NamespacedName := { Namespace := "test", Name := "ecr1" } }

/-- A published, untainted revision whose status is up to date. -/
def syncedRevision : EnvoyConfigRevision :=
  mkRevision [EnvoyConfigRevisionFinalizer] none (some true) (some false)
    [mkCondition RevisionPublishedCondition ConditionStatus.ConditionTrue "Published"]

/-- A revision that has just been given a true `RevisionPublished` condition
while its `RevisionTainted` condition is true, with `status.published` still
false. -/
def freshTaintedRevision : EnvoyConfigRevision :=
  mkRevision [EnvoyConfigRevisionFinalizer] none (some false) (some false)
    [mkCondition RevisionPublishedCondition ConditionStatus.ConditionTrue "Published",
     mkCondition RevisionTaintedCondition ConditionStatus.ConditionTrue "Nacked"]

/-- A revision that has just been given a true `RevisionPublished` condition,
out of sync, with `status.published` still false. -/
def freshRevision : EnvoyConfigRevision :=
  mkRevision [EnvoyConfigRevisionFinalizer] none (some false) (some false)
    [mkCondition ResourcesOutOfSyncCondition ConditionStatus.ConditionTrue "OutOfSync",
     mkCondition RevisionPublishedCondition ConditionStatus.ConditionTrue "Published"]

/-- A revision whose `RevisionTainted` condition was set to true from outside
with the reason `Nacked`, while its `status.tainted` is still false. -/
def nackedRevision : EnvoyConfigRevision :=
  mkRevision [EnvoyConfigRevisionFinalizer] none (some false) (some false)
    [mkCondition RevisionTaintedCondition ConditionStatus.ConditionTrue "Nacked"]

/-- A revision marked for deletion that still holds the finalizer and is not
published. -/
def deletingRevision : EnvoyConfigRevision :=
  mkRevision [EnvoyConfigRevisionFinalizer] (some 5) (some false) (some false) []

/-- A published revision marked for deletion that still holds the finalizer. -/
def deletingPublishedRevision : EnvoyConfigRevision :=
  mkRevision [EnvoyConfigRevisionFinalizer] (some 5) (some true) (some false)
    [mkCondition RevisionPublishedCondition ConditionStatus.ConditionTrue "Published"]

/-- A revision as `crud_test.go` writes it: a name, a namespace and labels,
every other field at its zero value. -/
def testRevision (name ns : String) (labels : List (String × String)) : EnvoyConfigRevision :=
  { ObjectMeta :=
      { Name := name, Namespace := ns, Labels := labels, Finalizers := []
        DeletionTimestamp := none }
    Spec :=
      { NodeID := "", Version := "", EnvoyAPI := none, Serialization := none
        EnvoyResources := "" }
    Status := { Published := none, Tainted := none, LastPublishedAt := none, Conditions := [] } }

/-- The store of the first case of `TestGetRevision`. -/
def testStoreUnique : List EnvoyConfigRevision :=
  [testRevision "ecr1" "test" [(revisions.NodeIDTag, "test"), (revisions.VersionTag, "1")],
   testRevision "ecr2" "test" [(revisions.NodeIDTag, "test"), (revisions.VersionTag, "2")],
   testRevision "ecr3" "test" [(revisions.NodeIDTag, "test"), (revisions.VersionTag, "3")]]

/-- The store of the second case of `TestGetRevision`. -/
def testStoreAmbiguous : List EnvoyConfigRevision :=
  [testRevision "ecr1" "test" [(revisions.NodeIDTag, "test"), (revisions.VersionTag, "1")],
   testRevision "ecr2" "test" [(revisions.NodeIDTag, "test"), (revisions.VersionTag, "1")],
   testRevision "ecr3" "test" [(revisions.NodeIDTag, "test"), (revisions.VersionTag, "3")]]

/-! ## Lemmas on the condition list -/

theorem RevisionPublished_ne_ResourcesOutOfSync :
    ResourcesOutOfSyncCondition ≠ RevisionPublishedCondition := by decide

theorem RevisionTainted_ne_ResourcesOutOfSync :
    ResourcesOutOfSyncCondition ≠ RevisionTaintedCondition := by decide

theorem RevisionPublished_ne_RevisionTainted :
    RevisionTaintedCondition ≠ RevisionPublishedCondition := by decide

/-- After `SetCondition` the set type is true exactly when the new condition
is. -/
theorem IsTrueFor_SetCondition_self (now : Time) (cs : Conditions) (newCond : Condition) :
    IsTrueFor (SetCondition now cs newCond) newCond.Type_ = newCond.IsTrue := by
  induction cs with
  | nil => simp [SetCondition, IsTrueFor, Condition.IsTrue]
  | cons c cs ih =>
    by_cases h : c.Type_ = newCond.Type_
    · simp [SetCondition, IsTrueFor, Condition.IsTrue, h]
    · simp [SetCondition, IsTrueFor, h, ih]

/-- The same with the new condition written out field by field. -/
theorem IsTrueFor_SetCondition_mk (now : Time) (cs : Conditions) (t : ConditionType)
    (st : ConditionStatus) (reason msg : String) (l : Time) :
    IsTrueFor (SetCondition now cs
      { Type_ := t, Status := st, Reason := reason, Message := msg, LastTransitionTime := l }) t
      = decide (st = ConditionStatus.ConditionTrue) :=
  IsTrueFor_SetCondition_self now cs
    { Type_ := t, Status := st, Reason := reason, Message := msg, LastTransitionTime := l }

/-- The truth of every other type is untouched by `SetCondition`. -/
theorem IsTrueFor_SetCondition_other (now : Time) (cs : Conditions) (newCond : Condition)
    (t : ConditionType) (h : newCond.Type_ ≠ t) :
    IsTrueFor (SetCondition now cs newCond) t = IsTrueFor cs t := by
  induction cs with
  | nil => simp [SetCondition, IsTrueFor, h]
  | cons c cs ih =>
    by_cases hc : c.Type_ = newCond.Type_
    · have hct : c.Type_ ≠ t := fun e => h (hc ▸ e)
      simp [SetCondition, IsTrueFor, hc, h, hct]
    · by_cases hct : c.Type_ = t
      · have h2 : ¬ t = newCond.Type_ := fun e => h e.symm
        simp [SetCondition, IsTrueFor, hct, h2]
      · simp [SetCondition, IsTrueFor, hc, hct, ih]

/-- The condition of every other type is untouched by `SetCondition`. -/
theorem GetCondition_SetCondition_other (now : Time) (cs : Conditions) (newCond : Condition)
    (t : ConditionType) (h : newCond.Type_ ≠ t) :
    GetCondition (SetCondition now cs newCond) t = GetCondition cs t := by
  induction cs with
  | nil => simp [SetCondition, GetCondition, h]
  | cons c cs ih =>
    by_cases hc : c.Type_ = newCond.Type_
    · have hct : c.Type_ ≠ t := fun e => h (hc ▸ e)
      simp [SetCondition, GetCondition, hc, h, hct]
    · by_cases hct : c.Type_ = t
      · have h2 : ¬ t = newCond.Type_ := fun e => h e.symm
        simp [SetCondition, GetCondition, hct, h2]
      · simp [SetCondition, GetCondition, hc, hct, ih]

/-- After `SetCondition` the condition of the set type carries the status,
reason and message of the new condition. -/
theorem GetCondition_SetCondition_self (now : Time) (cs : Conditions) (newCond : Condition) :
    ∃ c, GetCondition (SetCondition now cs newCond) newCond.Type_ = some c ∧
      c.Status = newCond.Status ∧ c.Reason = newCond.Reason ∧ c.Message = newCond.Message := by
  induction cs with
  | nil => simp [SetCondition, GetCondition]
  | cons c cs ih =>
    by_cases h : c.Type_ = newCond.Type_
    · simp [SetCondition, GetCondition, h]
    · simpa [SetCondition, GetCondition, h] using ih

/-- A condition that is true is found. -/
theorem GetCondition_of_IsTrueFor (cs : Conditions) (t : ConditionType)
    (h : IsTrueFor cs t = true) :
    ∃ c, GetCondition cs t = some c ∧ c.Status = ConditionStatus.ConditionTrue := by
  induction cs with
  | nil => simp [IsTrueFor] at h
  | cons c cs ih =>
    by_cases hc : c.Type_ = t
    · simpa [IsTrueFor, GetCondition, hc, Condition.IsTrue] using h
    · simp only [IsTrueFor, hc, if_false] at h
      simpa [GetCondition, hc] using ih h

/-! ## Lemmas on the status reconciler -/

/-- An up-to-date status goes through `updateStatus` untouched and
unpatched. -/
theorem updateStatus_of_synced (r : EnvoyConfigRevisionReconciler) (hist : List Call)
    (ecr : EnvoyConfigRevision)
    (hp : ecr.Status.Published =
      some (IsTrueFor ecr.Status.Conditions RevisionPublishedCondition))
    (ht : ecr.Status.Tainted =
      some (IsTrueFor ecr.Status.Conditions RevisionTaintedCondition))
    (hs : IsTrueFor ecr.Status.Conditions ResourcesOutOfSyncCondition = false) :
    updateStatus r hist ecr = some { ecr := ecr, calls := hist, err := none } := by
  cases hP : IsTrueFor ecr.Status.Conditions RevisionPublishedCondition <;>
  cases hT : IsTrueFor ecr.Status.Conditions RevisionTaintedCondition <;>
  simp [updateStatus, clearResourcesOutOfSync, setPublished, setTainted, hs, hp, ht, hP, hT]

/-- What `updateStatus` does to a revision whose `status.published` and
`status.tainted` are set: it returns, the two fields become the truth of
their conditions, `ResourcesOutOfSync` is no longer true, the `Published` and
`Tainted` conditions, the metadata and the spec are untouched, and either
nothing was sent or one status patch was. -/
theorem updateStatus_spec (r : EnvoyConfigRevisionReconciler) (hist : List Call)
    (ecr : EnvoyConfigRevision) (p t : Bool)
    (hp : ecr.Status.Published = some p) (ht : ecr.Status.Tainted = some t) :
    ∃ out, updateStatus r hist ecr = some out ∧
      out.ecr.Status.Published =
        some (IsTrueFor ecr.Status.Conditions RevisionPublishedCondition) ∧
      out.ecr.Status.Tainted =
        some (IsTrueFor ecr.Status.Conditions RevisionTaintedCondition) ∧
      IsTrueFor out.ecr.Status.Conditions ResourcesOutOfSyncCondition = false ∧
      IsTrueFor out.ecr.Status.Conditions RevisionPublishedCondition =
        IsTrueFor ecr.Status.Conditions RevisionPublishedCondition ∧
      IsTrueFor out.ecr.Status.Conditions RevisionTaintedCondition =
        IsTrueFor ecr.Status.Conditions RevisionTaintedCondition ∧
      GetCondition out.ecr.Status.Conditions RevisionPublishedCondition =
        GetCondition ecr.Status.Conditions RevisionPublishedCondition ∧
      GetCondition out.ecr.Status.Conditions RevisionTaintedCondition =
        GetCondition ecr.Status.Conditions RevisionTaintedCondition ∧
      out.ecr.ObjectMeta = ecr.ObjectMeta ∧ out.ecr.Spec = ecr.Spec ∧
      ((out.calls = hist ∧ out.err = none) ∨
        (out.calls = hist ++ [Call.StatusPatch out.ecr ecr] ∧
          out.err = r.Client.StatusPatch hist out.ecr ecr)) := by
  have e1 := RevisionPublished_ne_ResourcesOutOfSync
  have e2 := RevisionTainted_ne_ResourcesOutOfSync
  cases hS : IsTrueFor ecr.Status.Conditions ResourcesOutOfSyncCondition <;>
  cases hP : IsTrueFor ecr.Status.Conditions RevisionPublishedCondition <;>
  cases hT : IsTrueFor ecr.Status.Conditions RevisionTaintedCondition <;>
  cases p <;> cases t <;>
  simp [updateStatus, clearResourcesOutOfSync, setPublished, setTainted,
    EnvoyConfigRevision.withConditions, hp, ht, hS, hP, hT,
    IsTrueFor_SetCondition_other, GetCondition_SetCondition_other, e1, e2,
    IsTrueFor_SetCondition_mk]

/-! ## The claims on the status reconciler -/

/-- C1 (idempotent status patch): for every revision whose `status.published`
and `status.tainted` are set and equal the truth of the `RevisionPublished`
and `RevisionTainted` conditions, and whose `ResourcesOutOfSync` condition is
not true, `updateStatus` returns no error, adds no call to the history (so no
status `Patch`) and leaves the revision as it was. -/
theorem updateStatus_idempotent_when_up_to_date (r : EnvoyConfigRevisionReconciler)
    (hist : List Call) (ecr : EnvoyConfigRevision)
    (hp : ecr.Status.Published =
      some (IsTrueFor ecr.Status.Conditions RevisionPublishedCondition))
    (ht : ecr.Status.Tainted =
      some (IsTrueFor ecr.Status.Conditions RevisionTaintedCondition))
    (hs : IsTrueFor ecr.Status.Conditions ResourcesOutOfSyncCondition = false) :
    updateStatus r hist ecr = some { ecr := ecr, calls := hist, err := none } :=
  updateStatus_of_synced r hist ecr hp ht hs

/-- C1 at the published, untainted revision `syncedRevision`. -/
theorem updateStatus_idempotent_when_up_to_date_witness :
    updateStatus (mkReconciler syncedRevision none none none (Result.empty, none)) []
      syncedRevision = some { ecr := syncedRevision, calls := [], err := none } :=
  updateStatus_idempotent_when_up_to_date _ [] syncedRevision (by decide) (by decide)
    (by decide)

/-- C8, as the code has it (fresh publish rule): for every revision whose
`status.published` is false and `status.tainted` is set, and whose
`RevisionPublished` condition is true, `updateStatus` returns with
`status.published` true, `status.lastPublishedAt` the current time and
`status.tainted` equal to the truth of the `RevisionTainted` condition (false
when that condition is not true), having issued exactly one status `Patch`,
of the updated revision against the revision as it was on entry. -/
theorem updateStatus_fresh_publish (r : EnvoyConfigRevisionReconciler)
    (hist : List Call) (ecr : EnvoyConfigRevision) (t : Bool)
    (hc : IsTrueFor ecr.Status.Conditions RevisionPublishedCondition = true)
    (hp : ecr.Status.Published = some false) (ht : ecr.Status.Tainted = some t) :
    ∃ out, updateStatus r hist ecr = some out ∧
      out.ecr.Status.Published = some true ∧
      out.ecr.Status.LastPublishedAt = some r.Now ∧
      out.ecr.Status.Tainted =
        some (IsTrueFor ecr.Status.Conditions RevisionTaintedCondition) ∧
      out.calls = hist ++ [Call.StatusPatch out.ecr ecr] ∧
      out.err = r.Client.StatusPatch hist out.ecr ecr := by
  have e1 := RevisionPublished_ne_ResourcesOutOfSync
  have e2 := RevisionTainted_ne_ResourcesOutOfSync
  cases hS : IsTrueFor ecr.Status.Conditions ResourcesOutOfSyncCondition <;>
  cases hT : IsTrueFor ecr.Status.Conditions RevisionTaintedCondition <;>
  simp [updateStatus, clearResourcesOutOfSync, setPublished, setTainted,
    EnvoyConfigRevision.withConditions, hp, ht, hS, hc, hT,
    IsTrueFor_SetCondition_other, e1, e2]

/-- C8 at the out-of-sync, freshly published revision `freshRevision`. -/
theorem updateStatus_fresh_publish_witness :
    ∃ out, updateStatus (mkReconciler freshRevision none none none (Result.empty, none)) []
        freshRevision = some out ∧
      out.ecr.Status.Published = some true ∧
      out.ecr.Status.LastPublishedAt = some 7 ∧
      out.ecr.Status.Tainted = some false ∧
      out.calls = [] ++ [Call.StatusPatch out.ecr freshRevision] ∧
      out.err = none :=
  updateStatus_fresh_publish (mkReconciler freshRevision none none none (Result.empty, none))
    [] freshRevision false (by decide) (by decide) (by decide)

/-- C8 as stated fails: the revision `freshTaintedRevision` is initialised,
its `RevisionPublished` condition is true and its `status.published` is false,
yet after `updateStatus` its `status.tainted` is true, not false, because its
`RevisionTainted` condition is true. -/
theorem freshTaintedRevision_stays_tainted :
    IsTrueFor freshTaintedRevision.Status.Conditions RevisionPublishedCondition = true ∧
    freshTaintedRevision.Status.Published = some false ∧
    freshTaintedRevision.Status.Tainted = some false ∧
    (updateStatus (mkReconciler freshTaintedRevision none none none (Result.empty, none)) []
        freshTaintedRevision).map (fun out => out.ecr.Status.Tainted) = some (some true) := by
  decide

/-- C10 (status is the projection of the conditions): for every revision
whose `status.published` and `status.tainted` are set, `updateStatus` returns
and afterwards `status.published` is the truth of the `RevisionPublished`
condition, `status.tainted` is the truth of the `RevisionTainted` condition,
the `ResourcesOutOfSync` condition is not true, and the `RevisionPublished`
and `RevisionTainted` conditions are the ones found before; running
`updateStatus` again on the outcome adds no call and changes nothing. -/
theorem updateStatus_projects_conditions (r : EnvoyConfigRevisionReconciler)
    (hist : List Call) (ecr : EnvoyConfigRevision) (p t : Bool)
    (hp : ecr.Status.Published = some p) (ht : ecr.Status.Tainted = some t) :
    ∃ out, updateStatus r hist ecr = some out ∧
      out.ecr.Status.Published =
        some (IsTrueFor out.ecr.Status.Conditions RevisionPublishedCondition) ∧
      out.ecr.Status.Tainted =
        some (IsTrueFor out.ecr.Status.Conditions RevisionTaintedCondition) ∧
      IsTrueFor out.ecr.Status.Conditions ResourcesOutOfSyncCondition = false ∧
      GetCondition out.ecr.Status.Conditions RevisionPublishedCondition =
        GetCondition ecr.Status.Conditions RevisionPublishedCondition ∧
      GetCondition out.ecr.Status.Conditions RevisionTaintedCondition =
        GetCondition ecr.Status.Conditions RevisionTaintedCondition ∧
      updateStatus r out.calls out.ecr =
        some { ecr := out.ecr, calls := out.calls, err := none } := by
  obtain ⟨out, hout, h1, h2, h3, h4, h5, h6, h7, -, -, -⟩ :=
    updateStatus_spec r hist ecr p t hp ht
  refine ⟨out, hout, ?_, ?_, h3, h6, h7, ?_⟩
  · rw [h4]; exact h1
  · rw [h5]; exact h2
  · exact updateStatus_of_synced r out.calls out.ecr (by rw [h4]; exact h1)
      (by rw [h5]; exact h2) h3

/-- C10 at the out-of-sync, freshly published revision `freshRevision`. -/
theorem updateStatus_projects_conditions_witness :
    ∃ out, updateStatus (mkReconciler freshRevision none none none (Result.empty, none)) []
        freshRevision = some out ∧
      out.ecr.Status.Published =
        some (IsTrueFor out.ecr.Status.Conditions RevisionPublishedCondition) ∧
      out.ecr.Status.Tainted =
        some (IsTrueFor out.ecr.Status.Conditions RevisionTaintedCondition) ∧
      IsTrueFor out.ecr.Status.Conditions ResourcesOutOfSyncCondition = false ∧
      GetCondition out.ecr.Status.Conditions RevisionPublishedCondition =
        GetCondition freshRevision.Status.Conditions RevisionPublishedCondition ∧
      GetCondition out.ecr.Status.Conditions RevisionTaintedCondition =
        GetCondition freshRevision.Status.Conditions RevisionTaintedCondition ∧
      updateStatus (mkReconciler freshRevision none none none (Result.empty, none))
        out.calls out.ecr = some { ecr := out.ecr, calls := out.calls, err := none } :=
  updateStatus_projects_conditions _ [] freshRevision false false (by decide) (by decide)

/-! ## The taint operation -/

/-- An already tainted revision goes through `taintSelf` untouched and
unpatched. -/
theorem taintSelf_of_tainted (r : EnvoyConfigRevisionReconciler) (hist : List Call)
    (ecr : EnvoyConfigRevision) (reason msg : String)
    (h : IsTrueFor ecr.Status.Conditions RevisionTaintedCondition = true) :
    taintSelf r hist ecr reason msg = { ecr := ecr, calls := hist, err := none } := by
  simp [taintSelf, h]

/-- After `taintSelf` the `RevisionTainted` condition is true. -/
theorem taintSelf_tainted (r : EnvoyConfigRevisionReconciler) (hist : List Call)
    (ecr : EnvoyConfigRevision) (reason msg : String) :
    IsTrueFor (taintSelf r hist ecr reason msg).ecr.Status.Conditions
      RevisionTaintedCondition = true := by
  cases h : IsTrueFor ecr.Status.Conditions RevisionTaintedCondition <;>
  simp [taintSelf, h, IsTrueFor_SetCondition_mk]

/-- What `taintSelf` does to a revision that is not tainted yet: the condition
and `status.tainted` are set and one status patch is sent. -/
theorem taintSelf_of_untainted (r : EnvoyConfigRevisionReconciler) (hist : List Call)
    (ecr : EnvoyConfigRevision) (reason msg : String)
    (h : IsTrueFor ecr.Status.Conditions RevisionTaintedCondition = false) :
    (taintSelf r hist ecr reason msg).ecr.Status.Tainted = some true ∧
    (taintSelf r hist ecr reason msg).calls =
      hist ++ [Call.StatusPatch (taintSelf r hist ecr reason msg).ecr ecr] ∧
    ∃ c, GetCondition (taintSelf r hist ecr reason msg).ecr.Status.Conditions
        RevisionTaintedCondition = some c ∧
      c.Status = ConditionStatus.ConditionTrue ∧ c.Reason = reason ∧ c.Message = msg := by
  refine ⟨by simp [taintSelf, h], by simp [taintSelf, h], ?_⟩
  have hc := GetCondition_SetCondition_self r.Now ecr.Status.Conditions
    { Type_ := RevisionTaintedCondition, Status := ConditionStatus.ConditionTrue
      Reason := reason, Message := msg, LastTransitionTime := 0 }
  simpa [taintSelf, h] using hc

/-- The fields `taintSelf` never touches, and the shape of its history. -/
theorem taintSelf_frame (r : EnvoyConfigRevisionReconciler) (hist : List Call)
    (ecr : EnvoyConfigRevision) (reason msg : String) :
    (taintSelf r hist ecr reason msg).ecr.ObjectMeta = ecr.ObjectMeta ∧
    (taintSelf r hist ecr reason msg).ecr.Spec = ecr.Spec ∧
    (taintSelf r hist ecr reason msg).ecr.Status.Published = ecr.Status.Published ∧
    ((taintSelf r hist ecr reason msg).ecr.Status.Tainted = ecr.Status.Tainted ∨
      (taintSelf r hist ecr reason msg).ecr.Status.Tainted = some true) ∧
    hist <+: (taintSelf r hist ecr reason msg).calls ∧
    countStatusPatches (taintSelf r hist ecr reason msg).calls ≤ countStatusPatches hist + 1 := by
  cases h : IsTrueFor ecr.Status.Conditions RevisionTaintedCondition <;>
  simp [taintSelf, h, countStatusPatches, Call.isStatusPatch]

/-- A run of taints on a tainted revision sends nothing. -/
theorem taintSelfAll_of_tainted (r : EnvoyConfigRevisionReconciler)
    (pairs : List (String × String)) (hist : List Call) (ecr : EnvoyConfigRevision)
    (h : IsTrueFor ecr.Status.Conditions RevisionTaintedCondition = true) :
    taintSelfAll r hist ecr pairs = (ecr, hist) := by
  induction pairs with
  | nil => rfl
  | cons pr rest ih =>
    obtain ⟨reason, msg⟩ := pr
    simp only [taintSelfAll, taintSelf_of_tainted r hist ecr reason msg h]
    exact ih

/-- C4, as the code has it (taint idempotence): for every revision and every
two `(reason, message)` pairs, after `taintSelf` has run with the first pair,
running it with the second pair returns no error, adds no call to the history
(so no status `Patch`) and leaves the revision unchanged. When the
`RevisionTainted` condition was not true before the first call, `status.tainted`
is then true and the condition is true with the reason and message of the
first call; when it was already true, the first call has changed nothing
either and the revision is as it was. Any run of `taintSelf` calls on the
revision adds at most one status `Patch` to the history. -/
theorem taintSelf_idempotent (r : EnvoyConfigRevisionReconciler) (hist : List Call)
    (ecr : EnvoyConfigRevision) (reason1 msg1 reason2 msg2 : String)
    (pairs : List (String × String)) :
    taintSelf r (taintSelf r hist ecr reason1 msg1).calls
        (taintSelf r hist ecr reason1 msg1).ecr reason2 msg2 =
      { ecr := (taintSelf r hist ecr reason1 msg1).ecr
        calls := (taintSelf r hist ecr reason1 msg1).calls
        err := none } ∧
    ((IsTrueFor ecr.Status.Conditions RevisionTaintedCondition = false ∧
        (taintSelf r hist ecr reason1 msg1).ecr.Status.Tainted = some true ∧
        ∃ c, GetCondition (taintSelf r hist ecr reason1 msg1).ecr.Status.Conditions
            RevisionTaintedCondition = some c ∧
          c.Status = ConditionStatus.ConditionTrue ∧ c.Reason = reason1 ∧ c.Message = msg1) ∨
      (IsTrueFor ecr.Status.Conditions RevisionTaintedCondition = true ∧
        (taintSelf r hist ecr reason1 msg1).ecr = ecr ∧
        (taintSelf r hist ecr reason1 msg1).calls = hist)) ∧
    countStatusPatches (taintSelfAll r hist ecr pairs).2 ≤ countStatusPatches hist + 1 := by
  refine ⟨taintSelf_of_tainted _ _ _ _ _ (taintSelf_tainted r hist ecr reason1 msg1), ?_, ?_⟩
  · cases h : IsTrueFor ecr.Status.Conditions RevisionTaintedCondition
    · left
      obtain ⟨h1, -, h3⟩ := taintSelf_of_untainted r hist ecr reason1 msg1 h
      exact ⟨rfl, h1, h3⟩
    · right
      simp [taintSelf, h]
  · cases pairs with
    | nil => simp [taintSelfAll]
    | cons pr rest =>
      obtain ⟨reason, msg⟩ := pr
      simp only [taintSelfAll]
      rw [taintSelfAll_of_tainted r rest _ _ (taintSelf_tainted r hist ecr reason msg)]
      exact (taintSelf_frame r hist ecr reason msg).2.2.2.2.2

/-- C4 as stated fails: on `nackedRevision`, whose `RevisionTainted` condition
is already true with the reason `Nacked` while `status.tainted` is false, two
`taintSelf` calls leave `status.tainted` false and the condition with the
reason `Nacked`, not the reason of the first call. -/
theorem taintSelf_already_tainted_counterexample :
    (taintSelf (mkReconciler nackedRevision none none none (Result.empty, none))
      (taintSelf (mkReconciler nackedRevision none none none (Result.empty, none)) []
        nackedRevision "FailedLoadingResources" "first").calls
      (taintSelf (mkReconciler nackedRevision none none none (Result.empty, none)) []
        nackedRevision "FailedLoadingResources" "first").ecr
      "FailedLoadingResources" "second").ecr.Status.Tainted = some false ∧
    (GetCondition
      (taintSelf (mkReconciler nackedRevision none none none (Result.empty, none))
        (taintSelf (mkReconciler nackedRevision none none none (Result.empty, none)) []
          nackedRevision "FailedLoadingResources" "first").calls
        (taintSelf (mkReconciler nackedRevision none none none (Result.empty, none)) []
          nackedRevision "FailedLoadingResources" "first").ecr
        "FailedLoadingResources" "second").ecr.Status.Conditions
      RevisionTaintedCondition).map (fun c => c.Reason) = some "Nacked" := by
  decide

/-! ## Lemmas on the reconciliation pass -/

/-- The status update that ends a pass, on a revision whose `status.published`
and `status.tainted` are set. -/
theorem reconcileStatus_frame (r : EnvoyConfigRevisionReconciler) (hist : List Call)
    (ecr : EnvoyConfigRevision) (p t : Bool)
    (hp : ecr.Status.Published = some p) (ht : ecr.Status.Tainted = some t) :
    ∃ out final, reconcileStatus r hist ecr = some out ∧ out.ecr = some final ∧
      out.result = Result.empty ∧
      final.ObjectMeta = ecr.ObjectMeta ∧
      final.Status.Tainted =
        some (IsTrueFor ecr.Status.Conditions RevisionTaintedCondition) ∧
      IsTrueFor final.Status.Conditions RevisionTaintedCondition =
        IsTrueFor ecr.Status.Conditions RevisionTaintedCondition ∧
      hist <+: out.calls ∧
      (out.err = none ∨ out.err = r.Client.StatusPatch hist final ecr) := by
  obtain ⟨u, hu, -, h2, -, -, h5, -, -, h8, -, hc⟩ := updateStatus_spec r hist ecr p t hp ht
  refine ⟨_, u.ecr, by rw [reconcileStatus, hu]; rfl, rfl, rfl, h8, h2, h5, ?_, ?_⟩
  · rcases hc with ⟨h, -⟩ | ⟨h, -⟩ <;> simp [h]
  · rcases hc with ⟨-, h⟩ | ⟨-, h⟩ <;> simp [h]

/-- The publish step and the status update, on a revision whose
`status.published` and `status.tainted` are set: the pass returns, the
metadata is untouched, the history only grows, and it grows by a call of the
cache reconciler first when the `RevisionPublished` condition is true. -/
theorem reconcilePublished_frame (r : EnvoyConfigRevisionReconciler) (hist : List Call)
    (req : Request) (ecr : EnvoyConfigRevision) (p t : Bool)
    (hp : ecr.Status.Published = some p) (ht : ecr.Status.Tainted = some t) :
    ∃ out final, reconcilePublished r hist req ecr = some out ∧ out.ecr = some final ∧
      final.ObjectMeta = ecr.ObjectMeta ∧
      hist <+: out.calls ∧
      (IsTrueFor ecr.Status.Conditions RevisionPublishedCondition = true →
        (hist ++ [Call.CacheReconcile req.NamespacedName ecr.Spec.EnvoyResources
          ecr.Spec.NodeID ecr.Spec.Version]) <+: out.calls) := by
  cases hpub : IsTrueFor ecr.Status.Conditions RevisionPublishedCondition
  · obtain ⟨out, final, h1, h2, -, h4, -, -, h7, -⟩ := reconcileStatus_frame r hist ecr p t hp ht
    exact ⟨out, final, by simp [reconcilePublished, hpub, h1], h2, h4, h7, by simp⟩
  · rcases hcache : r.CacheReconcile hist ecr with ⟨res, err⟩
    have hpre : hist <+: hist ++ [Call.CacheReconcile req.NamespacedName
        ecr.Spec.EnvoyResources ecr.Spec.NodeID ecr.Spec.Version] := List.prefix_append _ _
    generalize hh1 : hist ++ [Call.CacheReconcile req.NamespacedName
        ecr.Spec.EnvoyResources ecr.Spec.NodeID ecr.Spec.Version] = h1 at hpre
    rcases err with _ | ⟨reason, message⟩ | message
    · cases hq : res.Requeue
      · obtain ⟨out, final, e1, e2, -, e4, -, -, e7, -⟩ :=
          reconcileStatus_frame r h1 ecr p t hp ht
        exact ⟨out, final, by simp [reconcilePublished, hpub, hcache, hh1, hq, e1], e2, e4,
          hpre.trans e7, fun _ => e7⟩
      · exact ⟨{ result := res, err := none, ecr := some ecr, calls := h1 }, ecr,
          by simp [reconcilePublished, hpub, hcache, hh1, hq], rfl, rfl, hpre,
          fun _ => List.prefix_rfl⟩
    · obtain ⟨f1, -, f3, f4, f5, -⟩ := taintSelf_frame r h1 ecr "FailedLoadingResources"
        (Error.StatusError reason message).Error
      generalize hT : taintSelf r h1 ecr "FailedLoadingResources"
        (Error.StatusError reason message).Error = T at f1 f3 f4 f5
      cases hterr : T.err with
      | none =>
        have ht2 : ∃ t2, T.ecr.Status.Tainted = some t2 := by
          rcases f4 with h | h
          · exact ⟨t, h.trans ht⟩
          · exact ⟨true, h⟩
        obtain ⟨t2, ht2⟩ := ht2
        obtain ⟨out, final, e1, e2, -, e4, -, -, e7, -⟩ :=
          reconcileStatus_frame r T.calls T.ecr p t2 (f3.trans hp) ht2
        refine ⟨out, final, ?_, e2, e4.trans f1, hpre.trans (f5.trans e7),
          fun _ => f5.trans e7⟩
        simp [reconcilePublished, hpub, hcache, hh1, hT, hterr, e1]
      | some e =>
        refine ⟨{ result := Result.empty, err := some e, ecr := some T.ecr, calls := T.calls },
          T.ecr, ?_, rfl, f1, hpre.trans f5, fun _ => f5⟩
        simp [reconcilePublished, hpub, hcache, hh1, hT, hterr]
    · exact ⟨{ result := res, err := some (Error.Other message), ecr := some ecr, calls := h1 },
        ecr, by simp [reconcilePublished, hpub, hcache, hh1], rfl, rfl, hpre,
        fun _ => List.prefix_rfl⟩

/-- Once removed, the finalizer is no longer held. -/
theorem ContainsFinalizer_RemoveFinalizer (ecr : EnvoyConfigRevision) (finalizer : String) :
    ContainsFinalizer (RemoveFinalizer ecr finalizer) finalizer = false := by
  simp [ContainsFinalizer, RemoveFinalizer]

/-- Whether a finalizer is held is read from the metadata alone. -/
theorem ContainsFinalizer_congr (a b : EnvoyConfigRevision) (finalizer : String)
    (h : a.ObjectMeta = b.ObjectMeta) :
    ContainsFinalizer a finalizer = ContainsFinalizer b finalizer := by
  simp [ContainsFinalizer, h]

/-- When every status patch succeeds `taintSelf` returns no error. -/
theorem taintSelf_err_of_patch_ok (r : EnvoyConfigRevisionReconciler) (hist : List Call)
    (ecr : EnvoyConfigRevision) (reason msg : String)
    (hpatch : ∀ h obj base, r.Client.StatusPatch h obj base = none) :
    (taintSelf r hist ecr reason msg).err = none := by
  cases h : IsTrueFor ecr.Status.Conditions RevisionTaintedCondition <;>
  simp [taintSelf, h, hpatch]

/-! ## The claims on the reconciliation pass -/

/-- C2 (permanent errors taint): for every revision that the client fetches,
that needs no defaulting, whose `status.published` and `status.tainted` are
set to whatever values, that is not being deleted and whose `RevisionPublished`
condition is true, if the cache reconciler answers with a
`*errors.StatusError` and every status patch succeeds, then `Reconcile`
returns the empty result and a nil error, and the revision it leaves has
`status.tainted` true and a true `RevisionTainted` condition. The taint is
sent to the API server: after the fetch and the cache reconciler the only
calls of the pass are the status patches, each against the revision as the
one before left it. `taintSelf` sends the revision `mid`, with
`status.tainted` true and a true `RevisionTainted` condition that carries the
reason `FailedLoadingResources` and the message of the error, unless that
condition was already true on the fetched revision; `updateStatus` then sends
the final revision unless nothing is left to change. When no patch at all is
sent the final revision is the fetched one, which was tainted already. -/
theorem Reconcile_permanent_error_taints (r : EnvoyConfigRevisionReconciler)
    (hist : List Call) (req : Request) (ecr : EnvoyConfigRevision) (p t : Bool)
    (res : Result) (reason message : String)
    (hget : r.Client.Get hist req.NamespacedName = .ok ecr)
    (hinit : r.IsInitialized ecr = (true, ecr))
    (hp : ecr.Status.Published = some p) (ht : ecr.Status.Tainted = some t)
    (hdel : IsBeingDeleted ecr = false)
    (hpub : IsTrueFor ecr.Status.Conditions RevisionPublishedCondition = true)
    (hcache : r.CacheReconcile (hist ++ [Call.Get req.NamespacedName]) ecr =
      (res, some (Error.StatusError reason message)))
    (hpatch : ∀ h obj base, r.Client.StatusPatch h obj base = none) :
    ∃ out final mid taintPatches statusPatches,
      Reconcile r hist req = some out ∧ out.ecr = some final ∧
      out.result = Result.empty ∧ out.err = none ∧
      final.Status.Tainted = some true ∧
      IsTrueFor final.Status.Conditions RevisionTaintedCondition = true ∧
      out.calls = hist ++ [Call.Get req.NamespacedName,
          Call.CacheReconcile req.NamespacedName ecr.Spec.EnvoyResources ecr.Spec.NodeID
            ecr.Spec.Version] ++ taintPatches ++ statusPatches ∧
      ((IsTrueFor ecr.Status.Conditions RevisionTaintedCondition = true ∧
          mid = ecr ∧ taintPatches = []) ∨
        (IsTrueFor ecr.Status.Conditions RevisionTaintedCondition = false ∧
          taintPatches = [Call.StatusPatch mid ecr] ∧
          mid.Status.Tainted = some true ∧
          ∃ c, GetCondition mid.Status.Conditions RevisionTaintedCondition = some c ∧
            c.Status = ConditionStatus.ConditionTrue ∧
            c.Reason = "FailedLoadingResources" ∧ c.Message = message)) ∧
      ((final = mid ∧ statusPatches = []) ∨
        statusPatches = [Call.StatusPatch final mid]) := by
  generalize hh1 : hist ++ [Call.Get req.NamespacedName] = h1 at hcache
  have hcalls : hist ++ [Call.Get req.NamespacedName,
      Call.CacheReconcile req.NamespacedName ecr.Spec.EnvoyResources ecr.Spec.NodeID
        ecr.Spec.Version] =
      h1 ++ [Call.CacheReconcile req.NamespacedName ecr.Spec.EnvoyResources
        ecr.Spec.NodeID ecr.Spec.Version] := by
    rw [← hh1]; simp
  rw [hcalls]
  generalize hh2 : h1 ++ [Call.CacheReconcile req.NamespacedName ecr.Spec.EnvoyResources
    ecr.Spec.NodeID ecr.Spec.Version] = h2
  obtain ⟨-, -, f3, f4, -, -⟩ := taintSelf_frame r h2 ecr "FailedLoadingResources"
    (Error.StatusError reason message).Error
  have f6 := taintSelf_tainted r h2 ecr "FailedLoadingResources"
    (Error.StatusError reason message).Error
  have f7 := taintSelf_err_of_patch_ok r h2 ecr "FailedLoadingResources"
    (Error.StatusError reason message).Error hpatch
  have f8 : (IsTrueFor ecr.Status.Conditions RevisionTaintedCondition = true ∧
        (taintSelf r h2 ecr "FailedLoadingResources"
          (Error.StatusError reason message).Error).ecr = ecr ∧
        (taintSelf r h2 ecr "FailedLoadingResources"
          (Error.StatusError reason message).Error).calls = h2) ∨
      (IsTrueFor ecr.Status.Conditions RevisionTaintedCondition = false ∧
        (taintSelf r h2 ecr "FailedLoadingResources"
          (Error.StatusError reason message).Error).calls =
          h2 ++ [Call.StatusPatch (taintSelf r h2 ecr "FailedLoadingResources"
            (Error.StatusError reason message).Error).ecr ecr] ∧
        (taintSelf r h2 ecr "FailedLoadingResources"
          (Error.StatusError reason message).Error).ecr.Status.Tainted = some true ∧
        ∃ c, GetCondition (taintSelf r h2 ecr "FailedLoadingResources"
            (Error.StatusError reason message).Error).ecr.Status.Conditions
            RevisionTaintedCondition = some c ∧
          c.Status = ConditionStatus.ConditionTrue ∧
          c.Reason = "FailedLoadingResources" ∧ c.Message = message) := by
    cases h : IsTrueFor ecr.Status.Conditions RevisionTaintedCondition
    · right
      have g := GetCondition_SetCondition_self r.Now ecr.Status.Conditions
        { Type_ := RevisionTaintedCondition, Status := ConditionStatus.ConditionTrue
          Reason := "FailedLoadingResources"
          Message := (Error.StatusError reason message).Error, LastTransitionTime := 0 }
      refine ⟨rfl, by simp [taintSelf, h], by simp [taintSelf, h], ?_⟩
      simpa [taintSelf, h, Error.Error] using g
    · left
      simp [taintSelf, h]
  generalize hT : taintSelf r h2 ecr "FailedLoadingResources"
    (Error.StatusError reason message).Error = T at f3 f4 f6 f7 f8
  have ht2 : ∃ t2, T.ecr.Status.Tainted = some t2 := by
    rcases f4 with h | h
    · exact ⟨t, h.trans ht⟩
    · exact ⟨true, h⟩
  obtain ⟨t2, ht2⟩ := ht2
  obtain ⟨u, hu, -, u2, -, -, u5, -⟩ :=
    updateStatus_spec r T.calls T.ecr p t2 (f3.trans hp) ht2
  have hp2 := f3.trans hp
  have hc : (u.ecr = T.ecr ∧ u.calls = T.calls ∧ u.err = none) ∨
      (u.calls = T.calls ++ [Call.StatusPatch u.ecr T.ecr] ∧
        u.err = r.Client.StatusPatch T.calls u.ecr T.ecr) := by
    have hu2 := hu
    revert hu2
    cases hS : IsTrueFor T.ecr.Status.Conditions ResourcesOutOfSyncCondition <;>
    cases hP : IsTrueFor T.ecr.Status.Conditions RevisionPublishedCondition <;>
    cases p <;> cases t2 <;>
    simp [updateStatus, clearResourcesOutOfSync, setPublished, setTainted,
      EnvoyConfigRevision.withConditions, hp2, ht2, hS, hP, f6,
      IsTrueFor_SetCondition_other, RevisionPublished_ne_ResourcesOutOfSync,
      RevisionTainted_ne_ResourcesOutOfSync] <;>
    intro hu2 <;> simp [← hu2]
  have hrec : Reconcile r hist req = some
      { result := Result.empty, err := u.err, ecr := some u.ecr, calls := u.calls } := by
    simp [Reconcile, hget, hinit, reconcileInitialized, hdel, reconcilePublished, hpub,
      hh1, hcache, hh2, hT, f7, reconcileStatus, hu]
  have herr : u.err = none := by
    rcases hc with ⟨-, -, h⟩ | ⟨-, h⟩
    · exact h
    · rw [h, hpatch]
  have hfin : u.ecr.Status.Tainted = some true := by rw [u2, f6]
  have hcond : IsTrueFor u.ecr.Status.Conditions RevisionTaintedCondition = true := by
    rw [u5, f6]
  rcases f8 with ⟨a1, a2, a3⟩ | ⟨a1, a3, a4, a5⟩
  · rcases hc with ⟨c1, c2, -⟩ | ⟨c2, -⟩
    · exact ⟨_, u.ecr, T.ecr, [], [], hrec, rfl, rfl, herr, hfin, hcond,
        by simp [c2, a3], Or.inl ⟨a1, a2, rfl⟩, Or.inl ⟨c1, rfl⟩⟩
    · exact ⟨_, u.ecr, T.ecr, [], [Call.StatusPatch u.ecr T.ecr], hrec, rfl, rfl, herr,
        hfin, hcond, by simp [c2, a3], Or.inl ⟨a1, a2, rfl⟩, Or.inr rfl⟩
  · rcases hc with ⟨c1, c2, -⟩ | ⟨c2, -⟩
    · exact ⟨_, u.ecr, T.ecr, [Call.StatusPatch T.ecr ecr], [], hrec, rfl, rfl, herr,
        hfin, hcond, by simp [c2, a3], Or.inr ⟨a1, rfl, a4, a5⟩, Or.inl ⟨c1, rfl⟩⟩
    · exact ⟨_, u.ecr, T.ecr, [Call.StatusPatch T.ecr ecr],
        [Call.StatusPatch u.ecr T.ecr], hrec, rfl, rfl, herr, hfin, hcond,
        by simp [c2, a3], Or.inr ⟨a1, rfl, a4, a5⟩, Or.inr rfl⟩

/-- C2 at the first publish of `freshRevision` (its `status.published` is
still false) with a cache reconciler that rejects the resources; evaluated,
the pass makes four calls, the fetch, the cache reconciler and two status
patches, the one of `taintSelf` and the one of `updateStatus`, and both patches
carry `status.tainted` true. -/
theorem Reconcile_permanent_error_taints_witness :
    (∃ out final mid taintPatches statusPatches,
      Reconcile (mkReconciler freshRevision none none none
        (Result.empty, some (Error.StatusError "Invalid" "bad listener"))) [] sampleRequest
        = some out ∧ out.ecr = some final ∧
      out.result = Result.empty ∧ out.err = none ∧
      final.Status.Tainted = some true ∧
      IsTrueFor final.Status.Conditions RevisionTaintedCondition = true ∧
      out.calls = [] ++ [Call.Get sampleRequest.NamespacedName,
          Call.CacheReconcile sampleRequest.NamespacedName freshRevision.Spec.EnvoyResources
            freshRevision.Spec.NodeID freshRevision.Spec.Version] ++
          taintPatches ++ statusPatches ∧
      ((IsTrueFor freshRevision.Status.Conditions RevisionTaintedCondition = true ∧
          mid = freshRevision ∧ taintPatches = []) ∨
        (IsTrueFor freshRevision.Status.Conditions RevisionTaintedCondition = false ∧
          taintPatches = [Call.StatusPatch mid freshRevision] ∧
          mid.Status.Tainted = some true ∧
          ∃ c, GetCondition mid.Status.Conditions RevisionTaintedCondition = some c ∧
            c.Status = ConditionStatus.ConditionTrue ∧
            c.Reason = "FailedLoadingResources" ∧ c.Message = "bad listener")) ∧
      ((final = mid ∧ statusPatches = []) ∨
        statusPatches = [Call.StatusPatch final mid])) ∧
    (Reconcile (mkReconciler freshRevision none none none
        (Result.empty, some (Error.StatusError "Invalid" "bad listener"))) []
        sampleRequest).map
      (fun out => out.calls.map fun c =>
        match c with
        | Call.StatusPatch obj _ => obj.Status.Tainted
        | _ => none)
      = some [none, none, some true, some true] :=
  ⟨Reconcile_permanent_error_taints
    (mkReconciler freshRevision none none none
      (Result.empty, some (Error.StatusError "Invalid" "bad listener")))
    [] sampleRequest freshRevision false false Result.empty "Invalid" "bad listener"
    rfl (by decide) rfl rfl (by decide) (by decide) rfl (fun _ _ _ => rfl), by decide⟩

/-- C3 (transient errors never taint): for every revision that the client
fetches, that needs no defaulting, that is not being deleted and whose
`RevisionPublished` condition is true, if the cache reconciler answers with a
requeue result or a non-nil error, and that error is not a
`*errors.StatusError`, then `Reconcile` returns exactly that result and error,
leaves the revision as fetched (so its `RevisionTainted` condition and
`status.tainted` are as they were), and its only calls are the fetch and the
cache reconciler: no status `Patch` is issued. -/
theorem Reconcile_transient_error_propagates (r : EnvoyConfigRevisionReconciler)
    (hist : List Call) (req : Request) (ecr : EnvoyConfigRevision)
    (res : Result) (err : Option Error)
    (hget : r.Client.Get hist req.NamespacedName = .ok ecr)
    (hinit : r.IsInitialized ecr = (true, ecr))
    (hdel : IsBeingDeleted ecr = false)
    (hpub : IsTrueFor ecr.Status.Conditions RevisionPublishedCondition = true)
    (hcache : r.CacheReconcile (hist ++ [Call.Get req.NamespacedName]) ecr = (res, err))
    (hfail : res.Requeue = true ∨ err ≠ none)
    (hkind : isStatusError err = false) :
    Reconcile r hist req = some
      { result := res, err := err, ecr := some ecr
        calls := hist ++ [Call.Get req.NamespacedName] ++
          [Call.CacheReconcile req.NamespacedName ecr.Spec.EnvoyResources
            ecr.Spec.NodeID ecr.Spec.Version] } := by
  rcases err with _ | ⟨reason, message⟩ | message
  · have hq : res.Requeue = true := by simpa using hfail
    simp [Reconcile, hget, hinit, reconcileInitialized, hdel, reconcilePublished, hpub,
      hcache, hq]
  · simp [isStatusError] at hkind
  · simp [Reconcile, hget, hinit, reconcileInitialized, hdel, reconcilePublished, hpub,
      hcache]

/-- C3 at `syncedRevision` with a cache reconciler that could not fetch a
secret. -/
theorem Reconcile_transient_error_propagates_witness :
    Reconcile (mkReconciler syncedRevision none none none
        (Result.empty, some (Error.Other "secret not found"))) [] sampleRequest = some
      { result := Result.empty, err := some (Error.Other "secret not found")
        ecr := some syncedRevision
        calls := [] ++ [Call.Get sampleRequest.NamespacedName] ++
          [Call.CacheReconcile sampleRequest.NamespacedName
            syncedRevision.Spec.EnvoyResources syncedRevision.Spec.NodeID
            syncedRevision.Spec.Version] } :=
  Reconcile_transient_error_propagates
    (mkReconciler syncedRevision none none none
      (Result.empty, some (Error.Other "secret not found")))
    [] sampleRequest syncedRevision Result.empty (some (Error.Other "secret not found"))
    rfl (by decide) (by decide) (by decide) rfl (Or.inr (by decide)) rfl

/-- C6, as the code has it (deletion and the finalizer): for every revision
that the client fetches, that needs no defaulting, whose `status.published`
and `status.tainted` are set, that is being deleted and holds the
EnvoyConfigRevision finalizer, whatever the outcome `cleanup` of the cache
cleanup (failure or success), `Reconcile` returns, its calls begin with the
fetch, the cleanup and one `Update` of the revision without the finalizer, and
the revision it leaves does not hold the finalizer. -/
theorem Reconcile_deletion_removes_finalizer (r : EnvoyConfigRevisionReconciler)
    (hist : List Call) (req : Request) (ecr : EnvoyConfigRevision) (p t : Bool)
    (cleanup : Option Error)
    (hget : r.Client.Get hist req.NamespacedName = .ok ecr)
    (hinit : r.IsInitialized ecr = (true, ecr))
    (hp : ecr.Status.Published = some p) (ht : ecr.Status.Tainted = some t)
    (hdel : IsBeingDeleted ecr = true)
    (hfin : ContainsFinalizer ecr EnvoyConfigRevisionFinalizer = true)
    (hclean : r.CleanupLogic (hist ++ [Call.Get req.NamespacedName]) ecr = cleanup) :
    ∃ out final, Reconcile r hist req = some out ∧ out.ecr = some final ∧
      ContainsFinalizer final EnvoyConfigRevisionFinalizer = false ∧
      (hist ++ [Call.Get req.NamespacedName, Call.CleanupLogic ecr,
        Call.Update (RemoveFinalizer ecr EnvoyConfigRevisionFinalizer)]) <+: out.calls := by
  have hrm := ContainsFinalizer_RemoveFinalizer ecr EnvoyConfigRevisionFinalizer
  have happ : hist ++ [Call.Get req.NamespacedName, Call.CleanupLogic ecr,
      Call.Update (RemoveFinalizer ecr EnvoyConfigRevisionFinalizer)] =
      hist ++ [Call.Get req.NamespacedName] ++ [Call.CleanupLogic ecr] ++
        [Call.Update (RemoveFinalizer ecr EnvoyConfigRevisionFinalizer)] := by simp
  rw [happ]
  cases hupd : r.Client.Update (hist ++ [Call.Get req.NamespacedName] ++
      [Call.CleanupLogic ecr]) (RemoveFinalizer ecr EnvoyConfigRevisionFinalizer) with
  | some e =>
    refine ⟨{ result := Result.empty, err := none
              ecr := some (RemoveFinalizer ecr EnvoyConfigRevisionFinalizer)
              calls := hist ++ [Call.Get req.NamespacedName] ++ [Call.CleanupLogic ecr] ++
                [Call.Update (RemoveFinalizer ecr EnvoyConfigRevisionFinalizer)] },
      RemoveFinalizer ecr EnvoyConfigRevisionFinalizer, ?_, rfl, hrm, List.prefix_rfl⟩
    simp only [List.append_assoc, List.cons_append, List.nil_append] at hupd
    simp [Reconcile, hget, hinit, reconcileInitialized, hdel, hfin, hupd]
  | none =>
    obtain ⟨out, final, e1, e2, e3, e4, -⟩ := reconcilePublished_frame r
      (hist ++ [Call.Get req.NamespacedName] ++ [Call.CleanupLogic ecr] ++
        [Call.Update (RemoveFinalizer ecr EnvoyConfigRevisionFinalizer)]) req
      (RemoveFinalizer ecr EnvoyConfigRevisionFinalizer) p t hp ht
    refine ⟨out, final, ?_, e2, ?_, e4⟩
    · simp only [List.append_assoc, List.cons_append, List.nil_append] at hupd e1
      simp [Reconcile, hget, hinit, reconcileInitialized, hdel, hfin, hupd, e1]
    · rw [ContainsFinalizer_congr final _ _ e3]; exact hrm

/-- C6 at `deletingRevision` with a cache cleanup that fails. -/
theorem Reconcile_deletion_removes_finalizer_witness :
    ∃ out final,
      Reconcile (mkReconciler deletingRevision none none
        (some (Error.Other "cache unavailable")) (Result.empty, none)) [] sampleRequest
        = some out ∧ out.ecr = some final ∧
      ContainsFinalizer final EnvoyConfigRevisionFinalizer = false ∧
      ([] ++ [Call.Get sampleRequest.NamespacedName, Call.CleanupLogic deletingRevision,
        Call.Update (RemoveFinalizer deletingRevision EnvoyConfigRevisionFinalizer)])
        <+: out.calls :=
  Reconcile_deletion_removes_finalizer
    (mkReconciler deletingRevision none none
      (some (Error.Other "cache unavailable")) (Result.empty, none))
    [] sampleRequest deletingRevision false false (some (Error.Other "cache unavailable"))
    rfl (by decide) rfl rfl (by decide) (by decide) rfl

/-- C6 as stated fails: `deletingRevision` is initialised, is being deleted
and holds the finalizer, the cache cleanup fails, and yet after `Reconcile`
the revision no longer holds the finalizer and the `Update` without it has
been issued. -/
theorem Reconcile_failed_cleanup_counterexample :
    defaultStatus deletingRevision = (true, deletingRevision) ∧
    IsBeingDeleted deletingRevision = true ∧
    ContainsFinalizer deletingRevision EnvoyConfigRevisionFinalizer = true ∧
    (mkReconciler deletingRevision none none
      (some (Error.Other "cache unavailable")) (Result.empty, none)).CleanupLogic
        [Call.Get sampleRequest.NamespacedName] deletingRevision
      = some (Error.Other "cache unavailable") ∧
    ((Reconcile (mkReconciler deletingRevision none none
        (some (Error.Other "cache unavailable")) (Result.empty, none)) []
        sampleRequest).bind (fun out => out.ecr)).map
      (fun final => ContainsFinalizer final EnvoyConfigRevisionFinalizer) = some false ∧
    (Reconcile (mkReconciler deletingRevision none none
        (some (Error.Other "cache unavailable")) (Result.empty, none)) []
        sampleRequest).map (fun out => out.calls) = some
      [Call.Get sampleRequest.NamespacedName, Call.CleanupLogic deletingRevision,
       Call.Update (RemoveFinalizer deletingRevision EnvoyConfigRevisionFinalizer)] := by
  decide

/-- C7, what the code does instead: for every revision that the client
fetches, that needs no defaulting, whose `status.published` and
`status.tainted` are set, that is being deleted and holds the finalizer, when
the `RevisionPublished` condition is true and the `Update` that persists the
finalizer removal succeeds, the pass does not end there: the next call of
`Reconcile` is the cache reconciler, for the resources, node and version of
the revision. -/
theorem Reconcile_deletion_falls_through_to_publish (r : EnvoyConfigRevisionReconciler)
    (hist : List Call) (req : Request) (ecr : EnvoyConfigRevision) (p t : Bool)
    (hget : r.Client.Get hist req.NamespacedName = .ok ecr)
    (hinit : r.IsInitialized ecr = (true, ecr))
    (hp : ecr.Status.Published = some p) (ht : ecr.Status.Tainted = some t)
    (hdel : IsBeingDeleted ecr = true)
    (hfin : ContainsFinalizer ecr EnvoyConfigRevisionFinalizer = true)
    (hpub : IsTrueFor ecr.Status.Conditions RevisionPublishedCondition = true)
    (hupd : r.Client.Update
      (hist ++ [Call.Get req.NamespacedName] ++ [Call.CleanupLogic ecr])
      (RemoveFinalizer ecr EnvoyConfigRevisionFinalizer) = none) :
    ∃ out, Reconcile r hist req = some out ∧
      (hist ++ [Call.Get req.NamespacedName, Call.CleanupLogic ecr,
        Call.Update (RemoveFinalizer ecr EnvoyConfigRevisionFinalizer),
        Call.CacheReconcile req.NamespacedName ecr.Spec.EnvoyResources ecr.Spec.NodeID
          ecr.Spec.Version]) <+: out.calls := by
  obtain ⟨out, final, e1, -, -, -, e5⟩ := reconcilePublished_frame r
    (hist ++ [Call.Get req.NamespacedName] ++ [Call.CleanupLogic ecr] ++
      [Call.Update (RemoveFinalizer ecr EnvoyConfigRevisionFinalizer)]) req
    (RemoveFinalizer ecr EnvoyConfigRevisionFinalizer) p t hp ht
  refine ⟨out, ?_, ?_⟩
  · simp only [List.append_assoc, List.cons_append, List.nil_append] at hupd e1
    simp [Reconcile, hget, hinit, reconcileInitialized, hdel, hfin, hupd, e1]
  · have h := e5 hpub
    simpa [RemoveFinalizer] using h

/-- C7 at `deletingPublishedRevision`, with every collaborator succeeding. -/
theorem Reconcile_deletion_falls_through_to_publish_witness :
    ∃ out, Reconcile (mkReconciler deletingPublishedRevision none none none
        (Result.empty, none)) [] sampleRequest = some out ∧
      ([] ++ [Call.Get sampleRequest.NamespacedName,
        Call.CleanupLogic deletingPublishedRevision,
        Call.Update (RemoveFinalizer deletingPublishedRevision EnvoyConfigRevisionFinalizer),
        Call.CacheReconcile sampleRequest.NamespacedName
          deletingPublishedRevision.Spec.EnvoyResources
          deletingPublishedRevision.Spec.NodeID
          deletingPublishedRevision.Spec.Version]) <+: out.calls :=
  Reconcile_deletion_falls_through_to_publish
    (mkReconciler deletingPublishedRevision none none none (Result.empty, none))
    [] sampleRequest deletingPublishedRevision true false
    rfl (by decide) rfl rfl (by decide) (by decide) (by decide) rfl

/-! ## The dispatch filter -/

/-- C9 (dispatch filter): for every configured API version, the predicate
built by `filterByAPIVersionPredicate version filterByAPIVersion` admits a
create event, an update event or a delete event exactly when the event's
object (the new object, for an update) is an EnvoyConfigRevision whose
`GetEnvoyAPIVersion()` equals the configured version; objects of another type
or version are rejected. -/
theorem filterByAPIVersionPredicate_admits
    (GetEnvoyAPIVersion : EnvoyConfigRevision → APIVersion) (version : APIVersion) :
    (∀ e : CreateEvent,
      (filterByAPIVersionPredicate version (filterByAPIVersion GetEnvoyAPIVersion)).Create e
        = true ↔
      ∃ o, e.Object = RuntimeObject.EnvoyConfigRevision o ∧ GetEnvoyAPIVersion o = version) ∧
    (∀ e : UpdateEvent,
      (filterByAPIVersionPredicate version (filterByAPIVersion GetEnvoyAPIVersion)).Update e
        = true ↔
      ∃ o, e.ObjectNew = RuntimeObject.EnvoyConfigRevision o ∧
        GetEnvoyAPIVersion o = version) ∧
    (∀ e : DeleteEvent,
      (filterByAPIVersionPredicate version (filterByAPIVersion GetEnvoyAPIVersion)).Delete e
        = true ↔
      ∃ o, e.Object = RuntimeObject.EnvoyConfigRevision o ∧ GetEnvoyAPIVersion o = version) := by
  have key : ∀ obj : RuntimeObject,
      filterByAPIVersion GetEnvoyAPIVersion obj version = true ↔
        ∃ o, obj = RuntimeObject.EnvoyConfigRevision o ∧ GetEnvoyAPIVersion o = version := by
    intro obj
    cases obj with
    | EnvoyConfigRevision o => simp [filterByAPIVersion]
    | Other kind => simp [filterByAPIVersion]
  refine ⟨fun e => ?_, fun e => ?_, fun e => ?_⟩
  · simpa [filterByAPIVersionPredicate, Funcs.Create] using key e.Object
  · simpa [filterByAPIVersionPredicate, Funcs.Update] using key e.ObjectNew
  · simpa [filterByAPIVersionPredicate, Funcs.Delete] using key e.Object

/-! ## The revision repository -/

/-- The three cases of `TestGetRevision` in `crud_test.go`: one match is
returned as stored, two matches and an empty store are errors. -/
theorem revisions.Get_test_cases :
    revisions.Get testStoreUnique "test" [revisions.ByNodeID "test", revisions.ByVersion "1"]
      = .ok (testRevision "ecr1" "test"
          [(revisions.NodeIDTag, "test"), (revisions.VersionTag, "1")]) ∧
    revisions.Get testStoreAmbiguous "test"
        [revisions.ByNodeID "test", revisions.ByVersion "1"]
      = .error revisions.LookupError.AmbiguousResult ∧
    revisions.Get [] "test" [revisions.ByNodeID "test", revisions.ByVersion "1"]
      = .error revisions.LookupError.NotFound :=
  ⟨rfl, rfl, rfl⟩

/-- C5 (repository uniqueness): for every collection of revisions, namespace
and list of filters, `Get` returns a revision with no error if and only if
exactly one revision of the collection lives in the namespace and passes all
the filters; and one of three cases holds: no revision matches and `Get` fails
with `NotFound`; exactly one matches and `Get` returns it as stored, a member
of the collection that matches and the only one to do so; two or more match
and `Get` fails with `AmbiguousResult`. A failure carries no revision. -/
theorem revisions.Get_exactly_one (store : List EnvoyConfigRevision) (ns : String)
    (filters : List revisions.RevisionFilter) :
    ((∃ ecr, revisions.Get store ns filters = .ok ecr) ↔
      store.countP (revisions.Matches ns filters) = 1) ∧
    ((store.countP (revisions.Matches ns filters) = 0 ∧
        revisions.Get store ns filters = .error revisions.LookupError.NotFound) ∨
      (store.countP (revisions.Matches ns filters) = 1 ∧
        ∃ ecr, revisions.Get store ns filters = .ok ecr ∧ ecr ∈ store ∧
          revisions.Matches ns filters ecr = true ∧
          store.filter (revisions.Matches ns filters) = [ecr]) ∨
      (2 ≤ store.countP (revisions.Matches ns filters) ∧
        revisions.Get store ns filters = .error revisions.LookupError.AmbiguousResult)) := by
  rw [List.countP_eq_length_filter]
  rcases hl : store.filter (revisions.Matches ns filters) with _ | ⟨a, _ | ⟨b, rest⟩⟩
  · simp [revisions.Get, revisions.ListRevisions, hl]
  · have hmem : a ∈ store.filter (revisions.Matches ns filters) := by simp [hl]
    have hmem2 := List.mem_filter.mp hmem
    simp [revisions.Get, revisions.ListRevisions, hl, hmem2.1, hmem2.2]
  · simp [revisions.Get, revisions.ListRevisions, hl]

/-- C5 at the first case of `TestGetRevision`. -/
theorem revisions.Get_exactly_one_witness :
    ((∃ ecr, revisions.Get testStoreUnique "test"
        [revisions.ByNodeID "test", revisions.ByVersion "1"] = .ok ecr) ↔
      testStoreUnique.countP
        (revisions.Matches "test" [revisions.ByNodeID "test", revisions.ByVersion "1"]) = 1) ∧
    ((testStoreUnique.countP
        (revisions.Matches "test" [revisions.ByNodeID "test", revisions.ByVersion "1"]) = 0 ∧
        revisions.Get testStoreUnique "test"
          [revisions.ByNodeID "test", revisions.ByVersion "1"]
          = .error revisions.LookupError.NotFound) ∨
      (testStoreUnique.countP
        (revisions.Matches "test" [revisions.ByNodeID "test", revisions.ByVersion "1"]) = 1 ∧
        ∃ ecr, revisions.Get testStoreUnique "test"
            [revisions.ByNodeID "test", revisions.ByVersion "1"] = .ok ecr ∧
          ecr ∈ testStoreUnique ∧
          revisions.Matches "test" [revisions.ByNodeID "test", revisions.ByVersion "1"] ecr
            = true ∧
          testStoreUnique.filter
            (revisions.Matches "test" [revisions.ByNodeID "test", revisions.ByVersion "1"])
            = [ecr]) ∨
      (2 ≤ testStoreUnique.countP
        (revisions.Matches "test" [revisions.ByNodeID "test", revisions.ByVersion "1"]) ∧
        revisions.Get testStoreUnique "test"
          [revisions.ByNodeID "test", revisions.ByVersion "1"]
          = .error revisions.LookupError.AmbiguousResult)) :=
  revisions.Get_exactly_one testStoreUnique "test"
    [revisions.ByNodeID "test", revisions.ByVersion "1"]

end Marin3r
